import Mathlib

/-!
Verification of the scene-graph core of this repository
(src/core/display/Container.js and src/core/sprites/webgl/texture.vert).

The child-list operations of Container are embedded over a "world" of node
identifiers: every identifier carries a child list and an optional parent
reference, so that reparenting (addChild detaching from the previous parent)
is expressible. Observable effects (the onChildrenChange hook and the
added/removed notifications) are returned as explicit event lists; thrown
JavaScript errors become Except values.
-/

set_option autoImplicit false

namespace PixiSpec

/-- Node identifiers standing for DisplayObject references. -/
abbrev NId := Nat

/-- Observable effects of a child-list mutation: the onChildrenChange hook
(carrying the raw JavaScript argument, with none standing for undefined) and
the added/removed notifications emitted on the child. -/
inductive Event where
  | hook (container : NId) (arg : Option Int)
  | added (child container : NId)
  | removed (child container : NId)
deriving DecidableEq

/-- The forest of display objects: each identifier has a child list and an
optional parent reference. -/
structure World where
  children : NId → List NId
  parent : NId → Option NId

/-- Replace the child list of one container. -/
def setChildren (w : World) (c : NId) (l : List NId) : World :=
  { children := fun m => if m = c then l else w.children m, parent := w.parent }

/-- Replace the parent reference of one node. -/
def setParent (w : World) (x : NId) (p : Option NId) : World :=
  { children := w.children, parent := fun n => if n = x then p else w.parent n }

/-- Array.prototype.indexOf: the first index of x, or -1 when absent. -/
def jsIndexOf : List NId → NId → Int
  | [], _ => -1
  | a :: l, x =>
    if a = x then 0
    else
      let r := jsIndexOf l x
      if r = -1 then -1 else r + 1

/-- utils.removeItems(arr, i, 1): splice one element out at position i
(no change when i is past the end). -/
def removeItems (l : List NId) (i : Nat) : List NId :=
  l.take i ++ l.drop (i + 1)

/-- arr.splice(i, 0, x): insert x at position i, clamped to the array end. -/
def spliceInsert (l : List NId) (i : Nat) (x : NId) : List NId :=
  l.take i ++ x :: l.drop i

/-- The two error species thrown by Container: plain Error and RangeError. -/
inductive JsError where
  | genericError
  | rangeError
deriving DecidableEq

/-- Container.prototype.removeChild, single-argument path: locate the child
with indexOf; silently return undefined (none) when it is not a member;
otherwise clear the parent reference, splice it out, fire the hook with the
vacated index and emit the removed notification. -/
def removeChild (w : World) (c x : NId) : World × List Event × Option NId :=
  let index := jsIndexOf (w.children c) x
  if index = -1 then
    (w, [], none)
  else
    let w1 := setParent w x none
    let w2 := setChildren w1 c (removeItems (w.children c) index.toNat)
    (w2, [Event.hook c (some index), Event.removed x c], some x)

/-- The detach-then-attach preamble shared by addChild and addChildAt:
if the child has a parent it is first removed from that parent. -/
def detachStep (w : World) (x : NId) : World × List Event :=
  match w.parent x with
  | some p => ((removeChild w p x).1, (removeChild w p x).2.1)
  | none => (w, [])

/-- Container.prototype.addChild, single-argument path: detach from the old
parent when present, set the parent reference, push to the end of the list,
fire the hook with the insertion index and emit the added notification. -/
def addChild (w : World) (c x : NId) : World × List Event :=
  let d := detachStep w x
  let w2 := setParent d.1 x (some c)
  let l := w2.children c ++ [x]
  (setChildren w2 c l,
   d.2 ++ [Event.hook c (some ((l.length : Int) - 1)), Event.added x c])

/-- Container.prototype.addChildAt: bounds check on the current list first
(an out-of-range index throws before any mutation), then the same
detach-then-attach as addChild with a splice at the requested index. -/
def addChildAt (w : World) (c x : NId) (index : Int) :
    Except JsError (World × List Event) :=
  if 0 ≤ index ∧ index ≤ ((w.children c).length : Int) then
    let d := detachStep w x
    let w2 := setParent d.1 x (some c)
    Except.ok (setChildren w2 c (spliceInsert (w2.children c) index.toNat x),
      d.2 ++ [Event.hook c (some index), Event.added x c])
  else
    Except.error JsError.genericError

/-- Container.prototype.getChildIndex: indexOf, throwing when absent. -/
def getChildIndex (w : World) (c x : NId) : Except JsError Int :=
  let index := jsIndexOf (w.children c) x
  if index = -1 then Except.error JsError.genericError else Except.ok index

/-- Container.prototype.swapChildren: early return when both arguments are
the same object; getChildIndex throws when either argument is not a child
(the index1 < 0 re-check in the source is unreachable); then the two slots
are overwritten and the hook fires once with the smaller index. -/
def swapChildren (w : World) (c x y : NId) :
    Except JsError (World × List Event) :=
  if x = y then Except.ok (w, [])
  else
    match getChildIndex w c x, getChildIndex w c y with
    | Except.ok i1, Except.ok i2 =>
      let l := w.children c
      Except.ok (setChildren w c ((l.set i1.toNat y).set i2.toNat x),
        [Event.hook c (some (if i1 < i2 then i1 else i2))])
    | Except.error e, _ => Except.error e
    | _, Except.error e => Except.error e

/-- Container.prototype.setChildIndex: bounds check on the target index,
then getChildIndex (throws when not a member), then remove from the old
position and splice in at the new one; the hook receives the NEW index. -/
def setChildIndex (w : World) (c x : NId) (index : Int) :
    Except JsError (World × List Event) :=
  if index < 0 ∨ ((w.children c).length : Int) ≤ index then
    Except.error JsError.genericError
  else
    match getChildIndex w c x with
    | Except.ok cur =>
      let l1 := removeItems (w.children c) cur.toNat
      Except.ok (setChildren w c (spliceInsert l1 index.toNat x),
        [Event.hook c (some index)])
    | Except.error e => Except.error e

/-- Container.prototype.getChildAt: throws when the index is out of range. -/
def getChildAt (w : World) (c : NId) (index : Int) : Except JsError NId :=
  if index < 0 ∨ ((w.children c).length : Int) ≤ index then
    Except.error JsError.genericError
  else
    Except.ok ((w.children c).getD index.toNat 0)

/-- Container.prototype.removeChildAt: getChildAt (throws when invalid),
then clear the parent, splice out, fire the hook with the vacated index and
emit the removed notification. -/
def removeChildAt (w : World) (c : NId) (index : Int) :
    Except JsError (World × List Event × NId) :=
  match getChildAt w c index with
  | Except.ok child =>
    let w1 := setParent w child none
    let w2 := setChildren w1 c (removeItems (w1.children c) index.toNat)
    Except.ok (w2, [Event.hook c (some index), Event.removed child c], child)
  | Except.error e => Except.error e

/-- Container.prototype.removeChildren: both arguments are optional (none
stands for undefined). The effective begin is beginIndex || 0, the effective
end defaults to the list length, and the guard is range > 0 && range <= end,
with a separate success case for a zero range on an empty list. Note that the
hook receives the RAW beginIndex argument, not the effective begin. -/
def removeChildren (w : World) (c : NId) (beginIndex endIndex : Option Int) :
    Except JsError (World × List Event × List NId) :=
  let b := beginIndex.getD 0
  let e := endIndex.getD ((w.children c).length : Int)
  let range := e - b
  if 0 < range ∧ range ≤ e then
    let removedL := ((w.children c).drop b.toNat).take range.toNat
    let l1 := (w.children c).take b.toNat ++
      (w.children c).drop (b.toNat + range.toNat)
    let w1 := setChildren w c l1
    let w2 := removedL.foldl (fun acc y => setParent acc y none) w1
    Except.ok (w2,
      Event.hook c beginIndex :: removedL.map (fun y => Event.removed y c),
      removedL)
  else if range = 0 ∧ (w.children c).length = 0 then
    Except.ok (w, [], [])
  else
    Except.error JsError.rangeError

/-- Whether an Except result is a thrown error. -/
def isThrown {α : Type} : Except JsError α → Bool
  | Except.error _ => true
  | Except.ok _ => false

/-- Events of an Except-returning mutation (empty when it threw). -/
def evsOf : Except JsError (World × List Event) → List Event
  | Except.ok r => r.2
  | Except.error _ => []

/-- Events of a removal returning removed children as well. -/
def evsOf3 : Except JsError (World × List Event × List NId) → List Event
  | Except.ok r => r.2.1
  | Except.error _ => []

/-- A world with one container (0) holding the single child 1. -/
def wOne : World :=
  { children := fun c => if c = 0 then [1] else [],
    parent := fun n => if n = 1 then some 0 else none }

/-- A world with one container (0) holding the children [1, 2]. -/
def wTwo : World :=
  { children := fun c => if c = 0 then [1, 2] else [],
    parent := fun n => if n = 1 ∨ n = 2 then some 0 else none }

/-- The entirely empty world: no children, no parents. -/
def wEmpty : World :=
  { children := fun _ => [], parent := fun _ => none }

theorem jsIndexOf_nonneg_or (l : List NId) (x : NId) :
    jsIndexOf l x = -1 ∨ 0 ≤ jsIndexOf l x := by
  induction l with
  | nil => left; rfl
  | cons a l ih =>
    by_cases hax : a = x
    · right; simp [jsIndexOf, hax]
    · by_cases hr : jsIndexOf l x = -1
      · left; simp [jsIndexOf, hax, hr]
      · right
        simp only [jsIndexOf, hax, if_false, hr, if_neg hr]
        rcases ih with h | h
        · exact absurd h hr
        · omega

theorem jsIndexOf_eq_neg_one (l : List NId) (x : NId) :
    jsIndexOf l x = -1 ↔ ¬ x ∈ l := by
  induction l with
  | nil => simp [jsIndexOf]
  | cons a l ih =>
    by_cases hax : a = x
    · subst hax; simp [jsIndexOf]
    · by_cases hr : jsIndexOf l x = -1
      · have hx : ¬ x ∈ l := ih.mp hr
        simp only [jsIndexOf, hax, if_false, hr, if_pos rfl, List.mem_cons]
        constructor
        · intro _ hor
          rcases hor with h1 | h1
          · exact hax h1.symm
          · exact hx h1
        · intro _; rfl
      · have hx : x ∈ l := by
          by_contra hnx
          exact hr (ih.mpr hnx)
        have h0 : 0 ≤ jsIndexOf l x := (jsIndexOf_nonneg_or l x).resolve_left hr
        simp only [jsIndexOf, hax, if_false, hr, if_neg hr, List.mem_cons]
        constructor
        · intro habs; omega
        · intro habs; exact absurd (Or.inr hx) habs

theorem jsIndexOf_ne_neg_one_of_mem (l : List NId) (x : NId) (h : x ∈ l) :
    jsIndexOf l x ≠ -1 :=
  fun hc => (jsIndexOf_eq_neg_one l x).mp hc h

theorem removeItems_jsIndexOf (l : List NId) (x : NId) (h : x ∈ l) :
    removeItems l (jsIndexOf l x).toNat = l.erase x := by
  induction l with
  | nil => cases h
  | cons a l ih =>
    by_cases hax : a = x
    · subst hax
      simp [jsIndexOf, removeItems]
    · have hx : x ∈ l := by
        rcases List.mem_cons.mp h with h1 | h1
        · exact absurd h1.symm hax
        · exact h1
      have hr : jsIndexOf l x ≠ -1 := jsIndexOf_ne_neg_one_of_mem l x hx
      have h0 : 0 ≤ jsIndexOf l x := (jsIndexOf_nonneg_or l x).resolve_left hr
      have hstep : jsIndexOf (a :: l) x = jsIndexOf l x + 1 := by
        simp [jsIndexOf, hax, hr]
      have htn : (jsIndexOf l x + 1).toNat = (jsIndexOf l x).toNat + 1 := by
        omega
      rw [hstep, htn]
      have hbeq : ¬ (a == x) = true := by simpa using hax
      rw [List.erase_cons_tail hbeq, ← ih hx]
      simp [removeItems]

/-- removeChild of a non-member: nothing happens, undefined is returned. -/
theorem removeChild_not_mem (w : World) (c x : NId)
    (h : ¬ x ∈ w.children c) : removeChild w c x = (w, [], none) := by
  simp [removeChild, (jsIndexOf_eq_neg_one _ _).mpr h]

/-- removeChild of a member: the resulting child lists. -/
theorem removeChild_mem_children (w : World) (c x : NId)
    (h : x ∈ w.children c) : ∀ m, (removeChild w c x).1.children m =
      if m = c then (w.children c).erase x else w.children m := by
  intro m
  have hr := jsIndexOf_ne_neg_one_of_mem _ _ h
  simp [removeChild, hr, setChildren, setParent, removeItems_jsIndexOf _ _ h]

/-- removeChild of a member: the resulting parent references. -/
theorem removeChild_mem_parent (w : World) (c x : NId)
    (h : x ∈ w.children c) : ∀ n, (removeChild w c x).1.parent n =
      if n = x then none else w.parent n := by
  intro n
  have hr := jsIndexOf_ne_neg_one_of_mem _ _ h
  simp [removeChild, hr, setChildren, setParent]

/-- removeChild of a member: the returned value and the emitted events. -/
theorem removeChild_mem_ret (w : World) (c x : NId)
    (h : x ∈ w.children c) :
    (removeChild w c x).2.2 = some x ∧
    (removeChild w c x).2.1 =
      [Event.hook c (some (jsIndexOf (w.children c) x)),
       Event.removed x c] := by
  have hr := jsIndexOf_ne_neg_one_of_mem _ _ h
  simp [removeChild, hr]

/-- Well-formedness of the forest: every listed child has its parent
reference pointing back to the container holding it, and no child list
contains duplicates. -/
def WF (w : World) : Prop :=
  (∀ c x, x ∈ w.children c → w.parent x = some c) ∧
  (∀ c, (w.children c).Nodup)

theorem wf_unique_container (w : World) (h : WF w) (c1 c2 y : NId)
    (h1 : y ∈ w.children c1) (h2 : y ∈ w.children c2) : c1 = c2 := by
  have e1 := h.1 c1 y h1
  have e2 := h.1 c2 y h2
  rw [e1] at e2
  exact Option.some.inj e2

theorem wf_removeChild (w : World) (c x : NId) (h : WF w) :
    WF (removeChild w c x).1 := by
  by_cases hm : x ∈ w.children c
  · constructor
    · intro c2 y hy
      rw [removeChild_mem_children w c x hm] at hy
      rw [removeChild_mem_parent w c x hm]
      by_cases hc2 : c2 = c
      · subst hc2
        rw [if_pos rfl] at hy
        have hyx := ((h.2 c2).mem_erase_iff).mp hy
        rw [if_neg hyx.1]
        exact h.1 c2 y hyx.2
      · rw [if_neg hc2] at hy
        have hyx : y ≠ x := by
          intro he
          apply hc2
          have e1 := h.1 c2 y hy
          have e2 := h.1 c x hm
          rw [he] at e1
          rw [e1] at e2
          exact Option.some.inj e2
        rw [if_neg hyx]
        exact h.1 c2 y hy
    · intro c2
      rw [removeChild_mem_children w c x hm]
      by_cases hc2 : c2 = c
      · subst hc2
        rw [if_pos rfl]
        exact (h.2 c2).erase x
      · rw [if_neg hc2]
        exact h.2 c2
  · rw [removeChild_not_mem w c x hm]
    exact h

theorem wf_detachStep (w : World) (x : NId) (h : WF w) :
    WF (detachStep w x).1 := by
  cases hp : w.parent x with
  | none => simpa [detachStep, hp] using h
  | some p => simpa [detachStep, hp] using wf_removeChild w p x h

theorem detachStep_not_mem (w : World) (x : NId) (h : WF w) :
    ∀ c2, ¬ x ∈ (detachStep w x).1.children c2 := by
  intro c2
  cases hp : w.parent x with
  | none =>
    simp only [detachStep, hp]
    intro hmem
    have e1 := h.1 c2 x hmem
    rw [hp] at e1
    cases e1
  | some p =>
    simp only [detachStep, hp]
    by_cases hm : x ∈ w.children p
    · rw [removeChild_mem_children w p x hm]
      by_cases hc : c2 = p
      · subst hc
        rw [if_pos rfl]
        intro hmem
        exact ((h.2 c2).mem_erase_iff.mp hmem).1 rfl
      · rw [if_neg hc]
        intro hmem
        have e1 := h.1 c2 x hmem
        rw [hp] at e1
        exact hc (Option.some.inj e1).symm
    · rw [removeChild_not_mem w p x hm]
      intro hmem
      have e1 := h.1 c2 x hmem
      rw [hp] at e1
      exact hm ((Option.some.inj e1) ▸ hmem)

theorem spliceInsert_perm (l : List NId) (i : Nat) (x : NId) :
    (spliceInsert l i x).Perm (x :: l) := by
  unfold spliceInsert
  have h1 : (l.take i ++ x :: l.drop i).Perm (x :: (l.take i ++ l.drop i)) :=
    List.perm_middle
  rw [List.take_append_drop] at h1
  exact h1

theorem wf_attach (w : World) (c x : NId) (l2 : List NId)
    (hperm : l2.Perm (x :: w.children c)) (h : WF w)
    (hx : ∀ c2, ¬ x ∈ w.children c2) :
    WF (setChildren (setParent w x (some c)) c l2) := by
  constructor
  · intro c2 y hy
    simp only [setChildren, setParent] at hy ⊢
    by_cases hc2 : c2 = c
    · subst hc2
      rw [if_pos rfl] at hy
      have hy2 : y = x ∨ y ∈ w.children c2 := by
        have hmem := hperm.mem_iff.mp hy
        simpa [List.mem_cons] using hmem
      rcases hy2 with rfl | hy2
      · rw [if_pos rfl]
      · have hyx : y ≠ x := fun he => hx c2 (he ▸ hy2)
        rw [if_neg hyx]
        exact h.1 c2 y hy2
    · rw [if_neg hc2] at hy
      have hyx : y ≠ x := fun he => hx c2 (he ▸ hy)
      rw [if_neg hyx]
      exact h.1 c2 y hy
  · intro c2
    simp only [setChildren, setParent]
    by_cases hc2 : c2 = c
    · subst hc2
      rw [if_pos rfl]
      exact (hperm.nodup_iff).mpr (List.nodup_cons.mpr ⟨hx c2, h.2 c2⟩)
    · rw [if_neg hc2]
      exact h.2 c2

theorem wf_addChild (w : World) (c x : NId) (h : WF w) :
    WF (addChild w c x).1 := by
  have h1 := wf_detachStep w x h
  have h2 := detachStep_not_mem w x h
  show WF (setChildren (setParent (detachStep w x).1 x (some c)) c
    ((setParent (detachStep w x).1 x (some c)).children c ++ [x]))
  exact wf_attach (detachStep w x).1 c x _
    (List.perm_append_singleton x _) h1 h2

theorem addChild_post (w : World) (c x : NId) (h : WF w) :
    (addChild w c x).1.parent x = some c ∧
    x ∈ (addChild w c x).1.children c ∧
    ∀ c2, c2 ≠ c → ¬ x ∈ (addChild w c x).1.children c2 := by
  have h2 := detachStep_not_mem w x h
  refine ⟨?_, ?_, ?_⟩
  · show (setChildren (setParent (detachStep w x).1 x (some c)) c
      ((setParent (detachStep w x).1 x (some c)).children c ++ [x])).parent x
        = some c
    simp [setChildren, setParent]
  · show x ∈ (setChildren (setParent (detachStep w x).1 x (some c)) c
      ((setParent (detachStep w x).1 x (some c)).children c ++ [x])).children c
    simp [setChildren, setParent]
  · intro c2 hc2
    show ¬ x ∈ (setChildren (setParent (detachStep w x).1 x (some c)) c
      ((setParent (detachStep w x).1 x (some c)).children c ++ [x])).children c2
    simp only [setChildren, setParent, if_neg hc2]
    exact h2 c2

theorem wf_addChildAt (w : World) (c x : NId) (i : Int) (h : WF w) :
    WF (match addChildAt w c x i with
        | Except.ok r => r.1
        | Except.error _ => w) := by
  unfold addChildAt
  split_ifs with hb
  · have h1 := wf_detachStep w x h
    have h2 := detachStep_not_mem w x h
    exact wf_attach (detachStep w x).1 c x _ (spliceInsert_perm _ _ _) h1 h2
  · exact h

/-- The mutations the single-parent claim quantifies over. -/
inductive COp where
  | add (c x : NId)
  | addAt (c x : NId) (i : Int)
  | remove (c x : NId)

/-- Apply one mutation, keeping the previous world when the call throws
(the failing precondition check happens before any mutation). -/
def applyOp (w : World) : COp → World
  | COp.add c x => (addChild w c x).1
  | COp.addAt c x i =>
    match addChildAt w c x i with
    | Except.ok r => r.1
    | Except.error _ => w
  | COp.remove c x => (removeChild w c x).1

/-- Apply a sequence of mutations in order. -/
def applyOps (w : World) (ops : List COp) : World := ops.foldl applyOp w

theorem wf_applyOp (w : World) (op : COp) (h : WF w) : WF (applyOp w op) := by
  cases op with
  | add c x => exact wf_addChild w c x h
  | addAt c x i => exact wf_addChildAt w c x i h
  | remove c x => exact wf_removeChild w c x h

theorem wf_applyOps (w : World) (ops : List COp) (h : WF w) :
    WF (applyOps w ops) := by
  induction ops generalizing w with
  | nil => exact h
  | cons op ops ih => exact ih (applyOp w op) (wf_applyOp w op h)

theorem wf_wEmpty : WF wEmpty := by
  constructor
  · intro c x hx
    simp [wEmpty] at hx
  · intro c
    simp [wEmpty]

/-- C7: addChild and addChildAt detach the child from its current parent
first (when it has one) and only then set the parent reference and insert,
so from any well-formed forest, any sequence of add, add-at and remove
operations preserves well-formedness: every element of a child list has its
parent pointing back to that container, no node appears in two child lists
simultaneously, and right after an addChild the added child sits exactly in
the target container. -/
theorem container_children_parent_invariant
    (w : World) (ops : List COp) (h : WF w) :
    WF (applyOps w ops) ∧
    (∀ c1 c2 y, y ∈ (applyOps w ops).children c1 →
      y ∈ (applyOps w ops).children c2 → c1 = c2) ∧
    (∀ c x, (addChild (applyOps w ops) c x).1.parent x = some c ∧
      x ∈ (addChild (applyOps w ops) c x).1.children c ∧
      ∀ c2, c2 ≠ c → ¬ x ∈ (addChild (applyOps w ops) c x).1.children c2) := by
  have hw := wf_applyOps w ops h
  exact ⟨hw, fun c1 c2 y h1 h2 => wf_unique_container _ hw c1 c2 y h1 h2,
    fun c x => addChild_post _ c x hw⟩

/-- Witness for C7: the invariant after a concrete mutation sequence
(append, insert at 0, reparent into container 3, remove) starting from the
empty forest. -/
theorem container_children_parent_invariant_witness :
    WF wEmpty ∧
    WF (applyOps wEmpty [COp.add 0 1, COp.addAt 0 2 0, COp.add 3 2,
      COp.remove 0 1]) :=
  ⟨wf_wEmpty,
   (container_children_parent_invariant wEmpty
     [COp.add 0 1, COp.addAt 0 2 0, COp.add 3 2, COp.remove 0 1]
     wf_wEmpty).1⟩

/-- C10: single-argument removeChild on a node that is not a member returns
undefined (none, not the node), leaves the world (child lists and parent
references) untouched and fires neither the hook nor a removed notification,
while removal of a member returns the removed child together with the hook
at the vacated index and a removed notification — the silent no-op and the
success case are distinguishable by return value. -/
theorem removeChild_missing_noop_vs_success (w : World) (c x : NId) :
    (¬ x ∈ w.children c → removeChild w c x = (w, [], none)) ∧
    (x ∈ w.children c →
      (removeChild w c x).2.2 = some x ∧
      (removeChild w c x).2.1 =
        [Event.hook c (some (jsIndexOf (w.children c) x)),
         Event.removed x c]) :=
  ⟨fun h => removeChild_not_mem w c x h,
   fun h => removeChild_mem_ret w c x h⟩

/-- Witness for C10 at a concrete container: node 5 is not a child of
container 0 in wTwo, node 1 is. -/
theorem removeChild_missing_noop_vs_success_witness :
    removeChild wTwo 0 5 = (wTwo, [], none) ∧
    (removeChild wTwo 0 1).2.2 = some 1 :=
  ⟨(removeChild_missing_noop_vs_success wTwo 0 5).1 (by decide),
   ((removeChild_missing_noop_vs_success wTwo 0 1).2 (by decide)).1⟩

/-- C1 counterexample: on a container whose child list is the non-empty
[1], removeChildren(0, 0) — a zero-length range with both endpoints inside
[0, length] — throws a RangeError instead of succeeding with an empty
result. -/
theorem removeChildren_zero_range_nonempty_throws :
    removeChildren wOne 0 (some 0) (some 0) =
      Except.error JsError.rangeError ∧
    wOne.children 0 = [1] := by
  constructor
  · rfl
  · rfl

/-- C1 (amended): the removeChildren error condition characterized. With
effective begin b = beginIndex || 0 and effective end e defaulting to the
list length, a call throws exactly when (e ≤ b or b < 0) and it is not the
case that b = e on an EMPTY child list. Hence a zero-length range succeeds
(returning the empty result, removing nothing) only on an empty container,
a zero-length range on a non-empty container throws, and an end beyond the
list length does not by itself throw. -/
theorem removeChildren_error_characterization
    (w : World) (c : NId) (bI eI : Option Int) :
    (isThrown (removeChildren w c bI eI) = true ↔
      ((eI.getD ((w.children c).length : Int) ≤ bI.getD 0 ∨ bI.getD 0 < 0) ∧
        ¬(bI.getD 0 = eI.getD ((w.children c).length : Int) ∧
          w.children c = []))) ∧
    (w.children c = [] →
      removeChildren w c none none = Except.ok (w, [], [])) := by
  constructor
  · simp only [removeChildren]
    split_ifs with h1 h2
    · simp only [isThrown, Bool.false_eq_true, false_iff]
      intro hR
      rcases hR with ⟨hor, _⟩
      omega
    · simp only [isThrown, Bool.false_eq_true, false_iff]
      intro hR
      exact hR.2 ⟨by omega, List.length_eq_zero.mp h2.2⟩
    · simp only [isThrown, true_iff]
      constructor
      · omega
      · intro hc
        exact h2 ⟨by omega, by simp [hc.2]⟩
  · intro h
    simp [removeChildren, h]

/-- Witness for the amended C1 theorem at a concrete empty container. -/
theorem removeChildren_error_characterization_witness :
    wEmpty.children 0 = [] ∧
    removeChildren wEmpty 0 none none = Except.ok (wEmpty, [], []) :=
  ⟨rfl, (removeChildren_error_characterization wEmpty 0 none none).2 rfl⟩

/-- Events of removeChildAt (empty when it threw). -/
def evsOfRemAt : Except JsError (World × List Event × NId) → List Event
  | Except.ok r => r.2.1
  | Except.error _ => []

theorem addChild_events_detached (w : World) (c x : NId)
    (h : w.parent x = none) :
    (addChild w c x).2 =
      [Event.hook c (some ((w.children c).length : Int)),
       Event.added x c] := by
  simp [addChild, detachStep, h, setParent, setChildren]

theorem addChildAt_events_detached (w : World) (c x : NId) (i : Int)
    (hp : w.parent x = none) (h0 : 0 ≤ i)
    (h1 : i ≤ ((w.children c).length : Int)) :
    evsOf (addChildAt w c x i) =
      [Event.hook c (some i), Event.added x c] := by
  simp [addChildAt, detachStep, hp, evsOf, h0, h1]

theorem swapChildren_events (w : World) (c x y : NId)
    (hxy : x ≠ y) (hx : x ∈ w.children c) (hy : y ∈ w.children c) :
    evsOf (swapChildren w c x y) =
      [Event.hook c (some (min (jsIndexOf (w.children c) x)
        (jsIndexOf (w.children c) y)))] := by
  have hrx := jsIndexOf_ne_neg_one_of_mem _ _ hx
  have hry := jsIndexOf_ne_neg_one_of_mem _ _ hy
  have hmin : (if jsIndexOf (w.children c) x < jsIndexOf (w.children c) y
      then jsIndexOf (w.children c) x else jsIndexOf (w.children c) y) =
      min (jsIndexOf (w.children c) x) (jsIndexOf (w.children c) y) := by
    by_cases hab : jsIndexOf (w.children c) x < jsIndexOf (w.children c) y
    · simp [hab, min_eq_left hab.le]
    · simp [hab, min_eq_right (le_of_not_lt hab)]
  simp [swapChildren, getChildIndex, hxy, hrx, hry, evsOf, hmin]

theorem setChildIndex_events (w : World) (c x : NId) (i : Int)
    (h0 : 0 ≤ i) (h1 : i < ((w.children c).length : Int))
    (hx : x ∈ w.children c) :
    evsOf (setChildIndex w c x i) = [Event.hook c (some i)] := by
  have hrx := jsIndexOf_ne_neg_one_of_mem _ _ hx
  have hcond : ¬(i < 0 ∨ ((w.children c).length : Int) ≤ i) := by omega
  simp [setChildIndex, getChildIndex, hrx, evsOf, hcond]

theorem removeChildAt_events (w : World) (c : NId) (i : Int)
    (h0 : 0 ≤ i) (h1 : i < ((w.children c).length : Int)) :
    evsOfRemAt (removeChildAt w c i) =
      [Event.hook c (some i),
       Event.removed ((w.children c).getD i.toNat 0) c] := by
  have hcond : ¬(i < 0 ∨ ((w.children c).length : Int) ≤ i) := by omega
  simp [removeChildAt, getChildAt, evsOfRemAt, hcond]

theorem removeChildren_events (w : World) (c : NId) (bI eI : Option Int)
    (hpos : 0 < eI.getD ((w.children c).length : Int) - bI.getD 0)
    (hle : eI.getD ((w.children c).length : Int) - bI.getD 0 ≤
      eI.getD ((w.children c).length : Int)) :
    evsOf3 (removeChildren w c bI eI) =
      Event.hook c bI ::
        (((w.children c).drop (bI.getD 0).toNat).take
          (eI.getD ((w.children c).length : Int) - bI.getD 0).toNat).map
          (fun y => Event.removed y c) := by
  simp [removeChildren, hpos, hle, evsOf3]

/-- C3 (amended): each structural mutation fires the onChildrenChange hook
exactly once, with: the insertion index for addChild (list length before the
push) and addChildAt — stated for a child with no current parent, since a
parented child first triggers a detach that fires the OLD parent hook too —
the smaller of the two indices for swapChildren, the vacated index for
removeChild and removeChildAt, the NEW index (not the lowest affected index)
for setChildIndex, and for removeChildren the RAW beginIndex argument,
which is undefined (none), not the effective begin 0, when omitted. -/
theorem onChildrenChange_single_hook_indices :
    (∀ w c x, (w : World).parent x = none →
      (addChild w c x).2 =
        [Event.hook c (some ((w.children c).length : Int)),
         Event.added x c]) ∧
    (∀ w c x i, (w : World).parent x = none → 0 ≤ i →
      i ≤ ((w.children c).length : Int) →
      evsOf (addChildAt w c x i) =
        [Event.hook c (some i), Event.added x c]) ∧
    (∀ w c x y, x ≠ y → x ∈ (w : World).children c → y ∈ w.children c →
      evsOf (swapChildren w c x y) =
        [Event.hook c (some (min (jsIndexOf (w.children c) x)
          (jsIndexOf (w.children c) y)))]) ∧
    (∀ w c x i, 0 ≤ i → i < (((w : World).children c).length : Int) →
      x ∈ w.children c →
      evsOf (setChildIndex w c x i) = [Event.hook c (some i)]) ∧
    (∀ w c x, x ∈ (w : World).children c →
      (removeChild w c x).2.1 =
        [Event.hook c (some (jsIndexOf (w.children c) x)),
         Event.removed x c]) ∧
    (∀ w c i, 0 ≤ i → i < (((w : World).children c).length : Int) →
      evsOfRemAt (removeChildAt w c i) =
        [Event.hook c (some i),
         Event.removed ((w.children c).getD i.toNat 0) c]) ∧
    (∀ w c bI eI,
      0 < eI.getD (((w : World).children c).length : Int) - bI.getD 0 →
      eI.getD ((w.children c).length : Int) - bI.getD 0 ≤
        eI.getD ((w.children c).length : Int) →
      evsOf3 (removeChildren w c bI eI) =
        Event.hook c bI ::
          (((w.children c).drop (bI.getD 0).toNat).take
            (eI.getD ((w.children c).length : Int) - bI.getD 0).toNat).map
            (fun y => Event.removed y c)) :=
  ⟨addChild_events_detached, addChildAt_events_detached, swapChildren_events,
   setChildIndex_events, fun w c x h => (removeChild_mem_ret w c x h).2,
   removeChildAt_events, removeChildren_events⟩

/-- C3 counterexample: in a container with children [1, 2], setChildIndex
moving child 1 from index 0 to index 1 fires the hook with the new index 1
although the lowest affected index is 0; and removeChildren with both
arguments omitted fires the hook with undefined (none), not with the begin
index 0. -/
theorem onChildrenChange_lowest_index_counterexample :
    evsOf (setChildIndex wTwo 0 1 1) = [Event.hook 0 (some 1)] ∧
    Event.hook 0 (some 1) ≠ Event.hook 0 (some 0) ∧
    evsOf3 (removeChildren wTwo 0 none none) =
      [Event.hook 0 none, Event.removed 1 0, Event.removed 2 0] ∧
    Event.hook 0 none ≠ Event.hook 0 (some 0) := by
  exact ⟨rfl, by decide, rfl, by decide⟩

/-- Witness for the amended C3 theorem at concrete containers. -/
theorem onChildrenChange_single_hook_indices_witness :
    (addChild wTwo 1 3).2 = [Event.hook 1 (some 0), Event.added 3 1] ∧
    evsOf (addChildAt wTwo 0 3 1) =
      [Event.hook 0 (some 1), Event.added 3 0] ∧
    evsOf (swapChildren wTwo 0 1 2) = [Event.hook 0 (some 0)] ∧
    evsOf (setChildIndex wTwo 0 2 0) = [Event.hook 0 (some 0)] ∧
    (removeChild wTwo 0 2).2.1 =
      [Event.hook 0 (some 1), Event.removed 2 0] ∧
    evsOfRemAt (removeChildAt wTwo 0 0) =
      [Event.hook 0 (some 0), Event.removed 1 0] ∧
    evsOf3 (removeChildren wTwo 0 (some 1) none) =
      [Event.hook 0 (some 1), Event.removed 2 0] := by
  refine ⟨?_, ?_, ?_, ?_, ?_, ?_, ?_⟩
  · exact onChildrenChange_single_hook_indices.1 wTwo 1 3 rfl
  · exact onChildrenChange_single_hook_indices.2.1 wTwo 0 3 1 rfl
      (by decide) (by decide)
  · exact onChildrenChange_single_hook_indices.2.2.1 wTwo 0 1 2
      (by decide) (by decide) (by decide)
  · exact onChildrenChange_single_hook_indices.2.2.2.1 wTwo 0 2 0
      (by decide) (by decide) (by decide)
  · exact onChildrenChange_single_hook_indices.2.2.2.2.1 wTwo 0 2 (by decide)
  · exact onChildrenChange_single_hook_indices.2.2.2.2.2.1 wTwo 0 0
      (by decide) (by decide)
  · exact onChildrenChange_single_hook_indices.2.2.2.2.2.2 wTwo 0
      (some 1) none (by decide) (by decide)

/-! The WebGL render traversal. The backend (renderer.currentRenderer,
maskManager, filterManager) is observed through the sequence of calls the
traversal makes, and the global incDisplayOrder counter is threaded
explicitly. -/

/-- The backend calls renderWebGL makes: batch flush and start, the filter
and mask stack operations, and the call to the overridable own-geometry
hook _renderWebGL. -/
inductive REvent where
  | flush
  | start
  | pushFilter
  | popFilter
  | pushMask
  | popMask
  | render
deriving DecidableEq

mutual
/-- A display node as renderWebGL reads it: the visible and renderable
flags, the composited worldAlpha, the mask reference (modelled by its
truthiness), the filter array (none for null, some l for an array), the
displayOrder slot the traversal writes, and the ordered children. -/
inductive RNode where
  | mk (visible renderable : Bool) (worldAlpha : Rat) (hasMask : Bool)
      (filters : Option (List Unit)) (displayOrder : Nat) (children : RList)

/-- An ordered child list of render nodes. -/
inductive RList where
  | nil
  | cons (hd : RNode) (tl : RList)
end

mutual
/-- Container.prototype.renderWebGL: an invisible node zeroes its
displayOrder and stops; a visible node stamps displayOrder with the next
counter value; a non-positive worldAlpha or a false renderable flag then
stops before any backend call; with a truthy mask or filter array the batch
is flushed, pushFilter fires only for a NON-EMPTY filter array, pushMask
for a truthy mask, a fresh batch starts, own geometry and then the children
render, the batch is flushed again, popMask fires for a truthy mask but
popFilter for ANY truthy filter array, and a fresh batch starts; otherwise
own geometry and the children render with no batch boundary. Returns the
stamped tree, the counter, and the backend call trace. -/
def renderWebGL : RNode → Nat → RNode × Nat × List REvent
  | RNode.mk v r wa m f _ cs, ctr =>
    if v = false then (RNode.mk v r wa m f 0 cs, ctr, [])
    else
      let d := ctr + 1
      if wa ≤ 0 ∨ r = false then (RNode.mk v r wa m f d cs, d, [])
      else if m || f.isSome then
        let hasFilters := match f with
          | some l => !l.isEmpty
          | none => false
        let rc := renderRList cs d
        (RNode.mk v r wa m f d rc.1, rc.2.1,
          [REvent.flush]
            ++ (if hasFilters then [REvent.pushFilter] else [])
            ++ (if m then [REvent.pushMask] else [])
            ++ [REvent.start, REvent.render]
            ++ rc.2.2
            ++ [REvent.flush]
            ++ (if m then [REvent.popMask] else [])
            ++ (if f.isSome then [REvent.popFilter] else [])
            ++ [REvent.start])
      else
        let rc := renderRList cs d
        (RNode.mk v r wa m f d rc.1, rc.2.1, REvent.render :: rc.2.2)

/-- Render a child list in order, threading the display-order counter. -/
def renderRList : RList → Nat → RList × Nat × List REvent
  | RList.nil, ctr => (RList.nil, ctr, [])
  | RList.cons c cs, ctr =>
    let r1 := renderWebGL c ctr
    let r2 := renderRList cs r1.2.1
    (RList.cons r1.1 r2.1, r2.2.1, r1.2.2 ++ r2.2.2)
end

/-- One unfolding of renderWebGL on a node that passes the visible,
worldAlpha and renderable gates. -/
theorem renderWebGL_rendering_eq (wa : Rat) (m : Bool)
    (f : Option (List Unit)) (d : Nat) (cs : RList) (ctr : Nat)
    (hwa : 0 < wa) :
    renderWebGL (RNode.mk true true wa m f d cs) ctr =
      if m || f.isSome then
        (RNode.mk true true wa m f (ctr + 1) (renderRList cs (ctr + 1)).1,
          (renderRList cs (ctr + 1)).2.1,
          [REvent.flush]
            ++ (if (match f with | some l => !l.isEmpty | none => false)
                then [REvent.pushFilter] else [])
            ++ (if m then [REvent.pushMask] else [])
            ++ [REvent.start, REvent.render]
            ++ (renderRList cs (ctr + 1)).2.2
            ++ [REvent.flush]
            ++ (if m then [REvent.popMask] else [])
            ++ (if f.isSome then [REvent.popFilter] else [])
            ++ [REvent.start])
      else
        (RNode.mk true true wa m f (ctr + 1) (renderRList cs (ctr + 1)).1,
          (renderRList cs (ctr + 1)).2.1,
          REvent.render :: (renderRList cs (ctr + 1)).2.2) := by
  have h2 : ¬ wa ≤ 0 := not_le.mpr hwa
  simp [renderWebGL, h2]

/-- C4: a visible, renderable node with positive worldAlpha carrying both a
mask and a non-empty filter list produces exactly: flush, pushFilter,
pushMask, start, own geometry, the children traces, flush, popMask,
popFilter, start — push order filter-then-mask, pop order mask-then-filter
(LIFO); and the child recursion visits the children in child-index order,
threading the counter left to right. -/
theorem renderWebGL_mask_filter_event_sequence (wa : Rat)
    (fs : List Unit) (d : Nat) (cs : RList) (ctr : Nat)
    (hwa : 0 < wa) (hfs : fs ≠ []) :
    (renderWebGL (RNode.mk true true wa true (some fs) d cs) ctr).2.2 =
      [REvent.flush, REvent.pushFilter, REvent.pushMask, REvent.start,
        REvent.render]
        ++ (renderRList cs (ctr + 1)).2.2
        ++ [REvent.flush, REvent.popMask, REvent.popFilter, REvent.start] ∧
    (∀ c rest k, (renderRList (RList.cons c rest) k).2.2 =
      (renderWebGL c k).2.2 ++
        (renderRList rest (renderWebGL c k).2.1).2.2) := by
  constructor
  · rw [renderWebGL_rendering_eq wa true (some fs) d cs ctr hwa]
    cases fs with
    | nil => exact absurd rfl hfs
    | cons a t => simp
  · intro c rest k
    rfl

/-- Witness for C4: a masked node with one filter and a single plain child;
the child contributes its own single render event between the two batch
boundaries. -/
theorem renderWebGL_mask_filter_event_sequence_witness :
    (renderWebGL (RNode.mk true true 1 true (some [()]) 0
      (RList.cons (RNode.mk true true 1 false none 0 RList.nil)
        RList.nil)) 0).2.2 =
      [REvent.flush, REvent.pushFilter, REvent.pushMask, REvent.start,
       REvent.render, REvent.render, REvent.flush, REvent.popMask,
       REvent.popFilter, REvent.start] := by
  exact (renderWebGL_mask_filter_event_sequence 1 [()] 0
    (RList.cons (RNode.mk true true 1 false none 0 RList.nil) RList.nil) 0
    (by norm_num) (by decide)).1

/-- C5: an invisible node gets displayOrder 0 and renderWebGL returns with
no backend call, no own-geometry call and untouched children; a visible
node is stamped with the next value of the global counter, and when its
worldAlpha is non-positive or it is not renderable, renderWebGL then
returns with no backend call, no own-geometry call and untouched children —
the gate short-circuits the entire subtree. -/
theorem renderWebGL_visibility_and_alpha_gates (r : Bool) (wa : Rat)
    (m : Bool) (f : Option (List Unit)) (d : Nat) (cs : RList) (ctr : Nat) :
    renderWebGL (RNode.mk false r wa m f d cs) ctr =
      (RNode.mk false r wa m f 0 cs, ctr, []) ∧
    (wa ≤ 0 ∨ r = false →
      renderWebGL (RNode.mk true r wa m f d cs) ctr =
        (RNode.mk true r wa m f (ctr + 1) cs, ctr + 1, [])) := by
  constructor
  · simp [renderWebGL]
  · intro h
    simp [renderWebGL, h]

/-- Witness for C5: a zero-alpha node is stamped with the next counter
value (5 after counter 4) and produces no events and no child changes. -/
theorem renderWebGL_visibility_and_alpha_gates_witness :
    renderWebGL (RNode.mk true true 0 false none 7 RList.nil) 4 =
      (RNode.mk true true 0 false none 5 RList.nil, 5, []) :=
  (renderWebGL_visibility_and_alpha_gates true 0 false none 7
    RList.nil 4).2 (Or.inl le_rfl)

/-- C2 counterexample: a visible, renderable, childless node with positive
worldAlpha, no mask and an EMPTY filter array takes the mask/filter branch
(the array is truthy), skips pushFilter (guarded by the array length) but
still calls popFilter (guarded only by array truthiness): one popFilter
with no matching pushFilter in the node visit. -/
theorem renderWebGL_empty_filters_unbalanced_pop :
    (renderWebGL (RNode.mk true true 1 false (some []) 0 RList.nil) 0).2.2 =
      [REvent.flush, REvent.start, REvent.render, REvent.flush,
       REvent.popFilter, REvent.start] ∧
    (renderWebGL (RNode.mk true true 1 false (some []) 0
      RList.nil) 0).2.2.count REvent.pushFilter = 0 ∧
    (renderWebGL (RNode.mk true true 1 false (some []) 0
      RList.nil) 0).2.2.count REvent.popFilter = 1 := by
  exact ⟨rfl, rfl, rfl⟩

/-- C2 (amended): for a rendered node (visible, renderable, positive
worldAlpha) the pushFilter count the node itself contributes (total count
minus the children contribution) is 1 exactly for a non-empty filter array,
while its own popFilter count is 1 for ANY truthy filter array — so the two
are paired for every filters value EXCEPT an empty array, where one
popFilter fires with no matching pushFilter. -/
theorem renderWebGL_filter_push_pop_counts (wa : Rat) (m : Bool)
    (f : Option (List Unit)) (d : Nat) (cs : RList) (ctr : Nat)
    (hwa : 0 < wa) :
    ((renderWebGL (RNode.mk true true wa m f d cs) ctr).2.2.count
        REvent.pushFilter
      - (renderRList cs (ctr + 1)).2.2.count REvent.pushFilter
      = (if (match f with | some l => !l.isEmpty | none => false) = true
         then 1 else 0)) ∧
    ((renderWebGL (RNode.mk true true wa m f d cs) ctr).2.2.count
        REvent.popFilter
      - (renderRList cs (ctr + 1)).2.2.count REvent.popFilter
      = (if f.isSome = true then 1 else 0)) ∧
    ((renderWebGL (RNode.mk true true wa m f d cs) ctr).2.2.count
        REvent.pushFilter
      - (renderRList cs (ctr + 1)).2.2.count REvent.pushFilter
      = (renderWebGL (RNode.mk true true wa m f d cs) ctr).2.2.count
          REvent.popFilter
        - (renderRList cs (ctr + 1)).2.2.count REvent.popFilter
      ↔ f ≠ some []) := by
  rw [renderWebGL_rendering_eq wa m f d cs ctr hwa]
  cases f with
  | none =>
    cases m <;>
      simp [List.count_append, List.count_cons, List.count_nil]
  | some l =>
    cases l with
    | nil =>
      cases m <;>
        simp [List.count_append, List.count_cons, List.count_nil]
    | cons a t =>
      cases m <;>
        simp [List.count_append, List.count_cons, List.count_nil]

/-- Witness for the amended C2 theorem: a node with one filter pushes once
and pops once. -/
theorem renderWebGL_filter_push_pop_counts_witness :
    ((renderWebGL (RNode.mk true true 1 false (some [()]) 0
        RList.nil) 0).2.2.count REvent.pushFilter
      - (renderRList RList.nil 1).2.2.count REvent.pushFilter = 1) ∧
    ((renderWebGL (RNode.mk true true 1 false (some [()]) 0
        RList.nil) 0).2.2.count REvent.popFilter
      - (renderRList RList.nil 1).2.2.count REvent.popFilter = 1) := by
  exact ⟨(renderWebGL_filter_push_pop_counts 1 false (some [()]) 0
      RList.nil 0 (by norm_num)).1,
    (renderWebGL_filter_push_pop_counts 1 false (some [()]) 0
      RList.nil 0 (by norm_num)).2.1⟩

/-! Transform propagation. The per-node world transform recomputation
(DisplayObject.prototype.displayObjectUpdateTransform) and the counter
utils.incUpdateOrder live outside src, so both are modelled from the spec;
the traversal shape itself is Container.prototype.updateTransform. -/

/-- Modelled from the spec: the external 2D affine matrix type
("Matrix/transform type: identity construction, composition with a parent
transform"), as the six coefficients of [a c tx; b d ty]. -/
structure Mat where
  a : Rat
  b : Rat
  c : Rat
  d : Rat
  tx : Rat
  ty : Rat
deriving DecidableEq

/-- Modelled from the spec: composition of a parent world transform with a
local transform ("world transform is a pure function of the node local
transform and the parent world transform"). -/
def matMul (p l : Mat) : Mat :=
  { a := p.a * l.a + p.c * l.b,
    b := p.b * l.a + p.d * l.b,
    c := p.a * l.c + p.c * l.d,
    d := p.b * l.c + p.d * l.d,
    tx := p.a * l.tx + p.c * l.ty + p.tx,
    ty := p.b * l.tx + p.d * l.ty + p.ty }

/-- The identity transform. -/
def idMat : Mat := { a := 1, b := 0, c := 0, d := 1, tx := 0, ty := 0 }

mutual
/-- A display node as updateTransform reads it: visibility, local and world
transforms, the updatePostOrder stamp, and the ordered children. -/
inductive TNode where
  | mk (visible : Bool) (localT worldT : Mat) (updatePostOrder : Nat)
      (children : TList)

/-- An ordered child list of transform nodes. -/
inductive TList where
  | nil
  | cons (hd : TNode) (tl : TList)
end

/-- The visible flag of a transform node. -/
def TNode.visibleOf : TNode → Bool
  | TNode.mk v _ _ _ _ => v

/-- The local transform of a transform node. -/
def TNode.localOf : TNode → Mat
  | TNode.mk _ l _ _ _ => l

/-- The world transform of a transform node. -/
def TNode.worldOf : TNode → Mat
  | TNode.mk _ _ w _ _ => w

/-- The updatePostOrder stamp of a transform node. -/
def rootStamp : TNode → Nat
  | TNode.mk _ _ _ u _ => u

mutual
/-- Container.prototype.updateTransform: an invisible node returns at once,
leaving itself and its whole subtree untouched; a visible node recomputes
its world transform as the parent world transform composed with its local
transform (displayObjectUpdateTransform, modelled from the spec), updates
every child in list order against the new world transform, and only after
all children complete stamps updatePostOrder with the next value of the
global counter (utils.incUpdateOrder, modelled from the spec as
increment-and-return). -/
def updateTransform : TNode → Mat → Nat → TNode × Nat
  | TNode.mk v lt wt u cs, pw, ctr =>
    if v = false then (TNode.mk v lt wt u cs, ctr)
    else
      let w2 := matMul pw lt
      let rc := updateTList cs w2 ctr
      (TNode.mk v lt w2 (rc.2 + 1) rc.1, rc.2 + 1)

/-- Update a child list in order, threading the counter. -/
def updateTList : TList → Mat → Nat → TList × Nat
  | TList.nil, _, ctr => (TList.nil, ctr)
  | TList.cons c cs, pw, ctr =>
    let r1 := updateTransform c pw ctr
    let r2 := updateTList cs pw r1.2
    (TList.cons r1.1 r2.1, r2.2)
end

mutual
/-- Every node of the tree is visible. -/
def allVisible : TNode → Bool
  | TNode.mk v _ _ _ cs => v && allVisibleL cs

/-- Every node of the forest is visible. -/
def allVisibleL : TList → Bool
  | TList.nil => true
  | TList.cons c cs => allVisible c && allVisibleL cs
end

/-- Every root stamp of the forest is at most the bound. -/
def stampsLe : TList → Nat → Bool
  | TList.nil, _ => true
  | TList.cons c cs, u => decide (rootStamp c ≤ u) && stampsLe cs u

mutual
/-- Post-order monotonicity: in every node of the tree, every child root
stamp is at most the parent stamp. -/
def postOrderMono : TNode → Bool
  | TNode.mk _ _ _ u cs => stampsLe cs u && postOrderMonoL cs

/-- Post-order monotonicity over a forest. -/
def postOrderMonoL : TList → Bool
  | TList.nil => true
  | TList.cons c cs => postOrderMono c && postOrderMonoL cs
end

theorem stampsLe_mono : ∀ (cs : TList) (k1 k2 : Nat), k1 ≤ k2 →
    stampsLe cs k1 = true → stampsLe cs k2 = true
  | TList.nil, _, _, _, _ => rfl
  | TList.cons c cs, k1, k2, h12, h => by
    simp only [stampsLe, Bool.and_eq_true, decide_eq_true_eq] at h ⊢
    exact ⟨le_trans h.1 h12, stampsLe_mono cs k1 k2 h12 h.2⟩

mutual
theorem updateTransform_mono : ∀ (t : TNode) (pw : Mat) (ctr : Nat),
    allVisible t = true →
    ctr < (updateTransform t pw ctr).2 ∧
    rootStamp (updateTransform t pw ctr).1 = (updateTransform t pw ctr).2 ∧
    postOrderMono (updateTransform t pw ctr).1 = true
  | TNode.mk v lt wt u cs, pw, ctr, h => by
    have hsplit : v = true ∧ allVisibleL cs = true := by
      have h2 := h
      simp only [allVisible, Bool.and_eq_true] at h2
      exact h2
    have hv : v = true := hsplit.1
    have hcs : allVisibleL cs = true := hsplit.2
    subst hv
    have ih := updateTList_mono cs (matMul pw lt) ctr hcs
    simp only [updateTransform, Bool.true_eq_false, if_false, rootStamp,
      postOrderMono, Bool.and_eq_true]
    refine ⟨by omega, trivial, ?_, ih.2.2⟩
    exact stampsLe_mono _ _ _ (Nat.le_succ _) ih.2.1

theorem updateTList_mono : ∀ (cs : TList) (pw : Mat) (ctr : Nat),
    allVisibleL cs = true →
    ctr ≤ (updateTList cs pw ctr).2 ∧
    stampsLe (updateTList cs pw ctr).1 (updateTList cs pw ctr).2 = true ∧
    postOrderMonoL (updateTList cs pw ctr).1 = true
  | TList.nil, pw, ctr, _ => ⟨le_rfl, rfl, rfl⟩
  | TList.cons c cs, pw, ctr, h => by
    have hsplit : allVisible c = true ∧ allVisibleL cs = true := by
      have h2 := h
      simp only [allVisibleL, Bool.and_eq_true] at h2
      exact h2
    have ih1 := updateTransform_mono c pw ctr hsplit.1
    have ih2 := updateTList_mono cs pw (updateTransform c pw ctr).2 hsplit.2
    simp only [updateTList, stampsLe, postOrderMonoL, Bool.and_eq_true,
      decide_eq_true_eq]
    refine ⟨by omega, ⟨?_, ih2.2.1⟩, ih1.2.2, ih2.2.2⟩
    rw [ih1.2.1]
    omega
end

/-- C6: updateTransform on an invisible node returns immediately with the
node (hence its whole subtree) and the counter untouched; on a visible node
the world transform is recomputed as the parent world transform composed
with the local transform; and over a tree of visible nodes, after one pass
every child stamp is at most its parent stamp throughout the tree, the root
being stamped last with the final counter value. -/
theorem updateTransform_skip_and_postorder (t : TNode) (pw : Mat)
    (ctr : Nat) :
    (TNode.visibleOf t = false → updateTransform t pw ctr = (t, ctr)) ∧
    (TNode.visibleOf t = true →
      TNode.worldOf (updateTransform t pw ctr).1 =
        matMul pw (TNode.localOf t)) ∧
    (allVisible t = true →
      postOrderMono (updateTransform t pw ctr).1 = true ∧
      rootStamp (updateTransform t pw ctr).1 = (updateTransform t pw ctr).2 ∧
      ctr < (updateTransform t pw ctr).2) := by
  cases t with
  | mk v lt wt u cs =>
    refine ⟨?_, ?_, ?_⟩
    · intro hv
      have : v = false := by simpa [TNode.visibleOf] using hv
      subst this
      simp [updateTransform]
    · intro hv
      have : v = true := by simpa [TNode.visibleOf] using hv
      subst this
      simp [updateTransform, TNode.worldOf, TNode.localOf]
    · intro hall
      have hm := updateTransform_mono (TNode.mk v lt wt u cs) pw ctr hall
      exact ⟨hm.2.2, hm.2.1, hm.1⟩

/-- A concrete three-node tree, all visible. -/
def tTree : TNode :=
  TNode.mk true idMat idMat 0
    (TList.cons (TNode.mk true idMat idMat 0 TList.nil)
      (TList.cons (TNode.mk true idMat idMat 0 TList.nil) TList.nil))

/-- Witness for C6: on a concrete all-visible tree the pass yields a
post-order monotone stamping. -/
theorem updateTransform_skip_and_postorder_witness :
    allVisible tTree = true ∧
    postOrderMono (updateTransform tTree idMat 0).1 = true :=
  ⟨rfl, ((updateTransform_skip_and_postorder tTree idMat 0).2.2 rfl).1⟩

/-! Bounds computation. Rectangle.EMPTY is a distinguished singleton tested
by reference identity in the source (childBounds === math.Rectangle.EMPTY),
so the embedding keeps it as its own constructor: a rectangle with
coordinates (0, 0, 0, 0) is a different value from EMPTY. -/

/-- The result of a bounds getter: the shared EMPTY singleton, or an actual
rectangle (x, y, width, height). -/
inductive BRes where
  | empty
  | rect (x y w h : Int)
deriving DecidableEq

/-- Modelled from the spec: Rectangle.prototype.enlarge unions two
rectangles, treating the EMPTY singleton as absorbing. -/
def enlarge : BRes → BRes → BRes
  | BRes.empty, r => r
  | r, BRes.empty => r
  | BRes.rect x1 y1 w1 h1, BRes.rect x2 y2 w2 h2 =>
    BRes.rect (min x1 x2) (min y1 y2)
      (max (x1 + w1) (x2 + w2) - min x1 x2)
      (max (y1 + h1) (y2 + h2) - min y1 y2)

mutual
/-- A display node as the bounds queries read it: visibility, the bounds of
the own geometry in the two query spaces (none when the node contributes no
geometry, as when updateProjectedGeometry / updateGeometry return nothing),
and the ordered children. The embedding follows the cache-cold path with
_localBounds unset. -/
inductive BNode where
  | mk (visible : Bool) (geomProj geomLocal : Option (Int × Int × Int × Int))
      (children : BList)

/-- An ordered child list of bounds nodes. -/
inductive BList where
  | nil
  | cons (hd : BNode) (tl : BList)
end

/-- The visible flag of a bounds node. -/
def BNode.visibleB : BNode → Bool
  | BNode.mk v _ _ _ => v

mutual
/-- Container.prototype.getBounds on the cache-cold path: when
updateProjectedGeometry yields no geometry the result is _getChildBounds
(childBoundsLoop started on the none accumulator), otherwise the geometry
bounds enlarged by the child bounds. -/
def getBounds : BNode → BRes
  | BNode.mk _ g _ cs =>
    match g with
    | none => childBoundsLoop cs none
    | some r => enlarge (BRes.rect r.1 r.2.1 r.2.2.1 r.2.2.2)
        (childBoundsLoop cs none)

/-- The _getChildBounds loop. The accumulator holds (minX, minY, maxX, maxY)
once the first visible child with non-EMPTY bounds has been folded in; the
none state is the source initial state (Infinity, Infinity, -Infinity,
-Infinity) together with childVisible = false, which the first contributing
child always overwrites because a finite coordinate wins every comparison
against the corresponding infinity. A child that is not visible, or whose
getBounds is the EMPTY singleton (an identity test in the source), is
skipped. With no contributor the source returns EMPTY; otherwise the
rectangle (minX, minY, maxX - minX, maxY - minY). -/
def childBoundsLoop : BList → Option (Int × Int × Int × Int) → BRes
  | BList.nil, none => BRes.empty
  | BList.nil, some a =>
    BRes.rect a.1 a.2.1 (a.2.2.1 - a.1) (a.2.2.2 - a.2.1)
  | BList.cons c cs, acc =>
    if BNode.visibleB c = false then childBoundsLoop cs acc
    else
      match getBounds c with
      | BRes.empty => childBoundsLoop cs acc
      | BRes.rect x y w h =>
        match acc with
        | none => childBoundsLoop cs (some (x, y, x + w, y + h))
        | some a => childBoundsLoop cs
            (some (min a.1 x, min a.2.1 y, max a.2.2.1 (x + w),
              max a.2.2.2 (y + h)))
end

/-- Container.prototype._getChildBounds. The source early return for a
childless container yields EMPTY, which coincides with the loop value on
the empty list and the none accumulator, so the wrapper is the loop started
on none. -/
def childBounds (cs : BList) : BRes := childBoundsLoop cs none

mutual
/-- Container.prototype.getComputedBounds on the cache-cold path: same
algorithm as getBounds over the computed-space geometry and the computed
child getter. -/
def getComputedBounds : BNode → BRes
  | BNode.mk _ _ g cs =>
    match g with
    | none => childComputedBoundsLoop cs none
    | some r => enlarge (BRes.rect r.1 r.2.1 r.2.2.1 r.2.2.2)
        (childComputedBoundsLoop cs none)

/-- The _getChildComputedBounds loop, textually the same algorithm as
childBoundsLoop over getComputedBounds. -/
def childComputedBoundsLoop : BList → Option (Int × Int × Int × Int) → BRes
  | BList.nil, none => BRes.empty
  | BList.nil, some a =>
    BRes.rect a.1 a.2.1 (a.2.2.1 - a.1) (a.2.2.2 - a.2.1)
  | BList.cons c cs, acc =>
    if BNode.visibleB c = false then childComputedBoundsLoop cs acc
    else
      match getComputedBounds c with
      | BRes.empty => childComputedBoundsLoop cs acc
      | BRes.rect x y w h =>
        match acc with
        | none => childComputedBoundsLoop cs (some (x, y, x + w, y + h))
        | some a => childComputedBoundsLoop cs
            (some (min a.1 x, min a.2.1 y, max a.2.2.1 (x + w),
              max a.2.2.2 (y + h)))
end

/-- Container.prototype._getChildComputedBounds, as the loop started on the
none accumulator (the childless early return coincides). -/
def childComputedBounds (cs : BList) : BRes := childComputedBoundsLoop cs none

/-- Spec-side predicate, written from the spec wording for the refinement
statement: a child contributes to the union iff it is visible and its
bounds getter does not return the EMPTY singleton. -/
def specContributing (c : BNode) : Bool :=
  BNode.visibleB c && decide (getBounds c ≠ BRes.empty)

/-- Spec-side filter keeping only the contributing children. -/
def specFilterChildren : BList → BList
  | BList.nil => BList.nil
  | BList.cons c cs =>
    if specContributing c then BList.cons c (specFilterChildren cs)
    else specFilterChildren cs

/-- Spec-side predicate for the computed-space query. -/
def specContributingC (c : BNode) : Bool :=
  BNode.visibleB c && decide (getComputedBounds c ≠ BRes.empty)

/-- Spec-side filter for the computed-space query. -/
def specFilterChildrenC : BList → BList
  | BList.nil => BList.nil
  | BList.cons c cs =>
    if specContributingC c then BList.cons c (specFilterChildrenC cs)
    else specFilterChildrenC cs

theorem childBoundsLoop_filter : ∀ (cs : BList)
    (acc : Option (Int × Int × Int × Int)),
    childBoundsLoop (specFilterChildren cs) acc = childBoundsLoop cs acc
  | BList.nil, acc => rfl
  | BList.cons c cs, acc => by
    by_cases hv : BNode.visibleB c = false
    · have hcon : specContributing c = false := by
        simp [specContributing, hv]
      rw [show specFilterChildren (BList.cons c cs) = specFilterChildren cs
        from by simp [specFilterChildren, hcon]]
      rw [childBoundsLoop_filter cs acc]
      simp [childBoundsLoop, hv]
    · have hv2 : BNode.visibleB c = true := by
        simpa using hv
      cases hgb : getBounds c with
      | empty =>
        have hcon : specContributing c = false := by
          simp [specContributing, hgb]
        rw [show specFilterChildren (BList.cons c cs) = specFilterChildren cs
          from by simp [specFilterChildren, hcon]]
        rw [childBoundsLoop_filter cs acc]
        simp [childBoundsLoop, hv2, hgb]
      | rect x y w h =>
        have hcon : specContributing c = true := by
          simp [specContributing, hv2, hgb]
        rw [show specFilterChildren (BList.cons c cs) =
            BList.cons c (specFilterChildren cs)
          from by simp [specFilterChildren, hcon]]
        cases acc with
        | none =>
          simp only [childBoundsLoop, hv2, hgb, Bool.true_eq_false,
            if_false]
          exact childBoundsLoop_filter cs _
        | some a =>
          simp only [childBoundsLoop, hv2, hgb, Bool.true_eq_false,
            if_false]
          exact childBoundsLoop_filter cs _

theorem childComputedBoundsLoop_filter : ∀ (cs : BList)
    (acc : Option (Int × Int × Int × Int)),
    childComputedBoundsLoop (specFilterChildrenC cs) acc =
      childComputedBoundsLoop cs acc
  | BList.nil, acc => rfl
  | BList.cons c cs, acc => by
    by_cases hv : BNode.visibleB c = false
    · have hcon : specContributingC c = false := by
        simp [specContributingC, hv]
      rw [show specFilterChildrenC (BList.cons c cs) = specFilterChildrenC cs
        from by simp [specFilterChildrenC, hcon]]
      rw [childComputedBoundsLoop_filter cs acc]
      simp [childComputedBoundsLoop, hv]
    · have hv2 : BNode.visibleB c = true := by
        simpa using hv
      cases hgb : getComputedBounds c with
      | empty =>
        have hcon : specContributingC c = false := by
          simp [specContributingC, hgb]
        rw [show specFilterChildrenC (BList.cons c cs) =
            specFilterChildrenC cs
          from by simp [specFilterChildrenC, hcon]]
        rw [childComputedBoundsLoop_filter cs acc]
        simp [childComputedBoundsLoop, hv2, hgb]
      | rect x y w h =>
        have hcon : specContributingC c = true := by
          simp [specContributingC, hv2, hgb]
        rw [show specFilterChildrenC (BList.cons c cs) =
            BList.cons c (specFilterChildrenC cs)
          from by simp [specFilterChildrenC, hcon]]
        cases acc with
        | none =>
          simp only [childComputedBoundsLoop, hv2, hgb, Bool.true_eq_false,
            if_false]
          exact childComputedBoundsLoop_filter cs _
        | some a =>
          simp only [childComputedBoundsLoop, hv2, hgb, Bool.true_eq_false,
            if_false]
          exact childComputedBoundsLoop_filter cs _

theorem childBounds_of_no_contributing (cs : BList)
    (h : specFilterChildren cs = BList.nil) :
    childBounds cs = BRes.empty := by
  have hf := childBoundsLoop_filter cs none
  rw [h] at hf
  exact hf.symm

theorem childComputedBounds_of_no_contributing (cs : BList)
    (h : specFilterChildrenC cs = BList.nil) :
    childComputedBounds cs = BRes.empty := by
  have hf := childComputedBoundsLoop_filter cs none
  rw [h] at hf
  exact hf.symm

theorem childBounds_singleton (c : BNode) (x y w h : Int)
    (hv : BNode.visibleB c = true) (hgb : getBounds c = BRes.rect x y w h) :
    childBounds (BList.cons c BList.nil) = BRes.rect x y w h := by
  simp [childBounds, childBoundsLoop, hv, hgb]

theorem childComputedBounds_singleton (c : BNode) (x y w h : Int)
    (hv : BNode.visibleB c = true)
    (hgb : getComputedBounds c = BRes.rect x y w h) :
    childComputedBounds (BList.cons c BList.nil) = BRes.rect x y w h := by
  simp [childComputedBounds, childComputedBoundsLoop, hv, hgb]

/-- C8: the child-bounds union in getBounds and getComputedBounds skips
exactly the children that are invisible or whose bounds getter returns the
EMPTY singleton; the skip test is identity of the singleton, not a
coordinate comparison, so a visible child whose bounds are the degenerate
rectangle (0, 0, 0, 0) — or any other rectangle — still contributes and is
returned as such; and when the node has no own geometry and no child
contributed, the result is the EMPTY singleton itself. -/
theorem bounds_skip_and_empty_singleton :
    (∀ cs acc, childBoundsLoop (specFilterChildren cs) acc =
      childBoundsLoop cs acc) ∧
    (∀ v gl cs, getBounds (BNode.mk v none gl cs) = childBounds cs) ∧
    (∀ v gl cs, specFilterChildren cs = BList.nil →
      getBounds (BNode.mk v none gl cs) = BRes.empty) ∧
    (∀ c x y w h, BNode.visibleB c = true →
      getBounds c = BRes.rect x y w h →
      childBounds (BList.cons c BList.nil) = BRes.rect x y w h) ∧
    (∀ cs acc, childComputedBoundsLoop (specFilterChildrenC cs) acc =
      childComputedBoundsLoop cs acc) ∧
    (∀ v gp cs, getComputedBounds (BNode.mk v gp none cs) =
      childComputedBounds cs) ∧
    (∀ v gp cs, specFilterChildrenC cs = BList.nil →
      getComputedBounds (BNode.mk v gp none cs) = BRes.empty) ∧
    (∀ c x y w h, BNode.visibleB c = true →
      getComputedBounds c = BRes.rect x y w h →
      childComputedBounds (BList.cons c BList.nil) = BRes.rect x y w h) :=
  ⟨childBoundsLoop_filter,
   fun _ _ _ => rfl,
   fun _ _ cs h => childBounds_of_no_contributing cs h,
   childBounds_singleton,
   childComputedBoundsLoop_filter,
   fun _ _ _ => rfl,
   fun _ _ cs h => childComputedBounds_of_no_contributing cs h,
   childComputedBounds_singleton⟩

/-- A visible leaf whose geometry bounds are the degenerate rectangle at
the origin in both spaces. -/
def bChild00 : BNode :=
  BNode.mk true (some (0, 0, 0, 0)) (some (0, 0, 0, 0)) BList.nil

/-- An invisible leaf with real geometry in both spaces. -/
def bInvis : BNode :=
  BNode.mk false (some (5, 5, 5, 5)) (some (5, 5, 5, 5)) BList.nil

/-- Witness for C8: a node whose only child is invisible reports the EMPTY
singleton, and a visible child with degenerate (0,0,0,0) bounds is NOT
skipped: it is returned as the (0,0,0,0) rectangle, distinct from EMPTY. -/
theorem bounds_skip_and_empty_singleton_witness :
    getBounds (BNode.mk true none none (BList.cons bInvis BList.nil)) =
      BRes.empty ∧
    childBounds (BList.cons bChild00 BList.nil) = BRes.rect 0 0 0 0 ∧
    getComputedBounds (BNode.mk true none none
      (BList.cons bInvis BList.nil)) = BRes.empty ∧
    childComputedBounds (BList.cons bChild00 BList.nil) =
      BRes.rect 0 0 0 0 ∧
    BRes.rect 0 0 0 0 ≠ BRes.empty :=
  ⟨bounds_skip_and_empty_singleton.2.2.1 true none
     (BList.cons bInvis BList.nil) rfl,
   bounds_skip_and_empty_singleton.2.2.2.1 bChild00 0 0 0 0 rfl rfl,
   bounds_skip_and_empty_singleton.2.2.2.2.2.2.1 true none
     (BList.cons bInvis BList.nil) rfl,
   bounds_skip_and_empty_singleton.2.2.2.2.2.2.2 bChild00 0 0 0 0 rfl rfl,
   by decide⟩

/-! The batched-sprite vertex shader src/core/sprites/webgl/texture.vert.
GLSL floats are modelled by exact rationals; the only arithmetic the claim
involves is one multiplication per color channel. -/

/-- A GLSL vec4. -/
structure Vec4 where
  x : Rat
  y : Rat
  z : Rat
  w : Rat
deriving DecidableEq

/-- A GLSL vec2. -/
structure Vec2 where
  x : Rat
  y : Rat
deriving DecidableEq

/-- A GLSL vec3. -/
structure Vec3 where
  x : Rat
  y : Rat
  z : Rat
deriving DecidableEq

/-- A GLSL mat4, as four rows. -/
structure Mat4 where
  r0 : Vec4
  r1 : Vec4
  r2 : Vec4
  r3 : Vec4
deriving DecidableEq

/-- mat4 times vec4. -/
def mat4MulVec (m : Mat4) (v : Vec4) : Vec4 :=
  { x := m.r0.x * v.x + m.r0.y * v.y + m.r0.z * v.z + m.r0.w * v.w,
    y := m.r1.x * v.x + m.r1.y * v.y + m.r1.z * v.z + m.r1.w * v.w,
    z := m.r2.x * v.x + m.r2.y * v.y + m.r2.z * v.z + m.r2.w * v.w,
    w := m.r3.x * v.x + m.r3.y * v.y + m.r3.z * v.z + m.r3.w * v.w }

/-- The vertex attributes of texture.vert. -/
structure VertexIn where
  aVertexPosition : Vec3
  aTextureCoord : Vec2
  aColor : Vec4
  aTextureId : Rat
deriving DecidableEq

/-- The position output and varyings of texture.vert. -/
structure VertexOut where
  glPosition : Vec4
  vTextureCoord : Vec2
  vColor : Vec4
  vTextureId : Rat
deriving DecidableEq

/-- main of texture.vert: gl_Position is the projected position,
vTextureCoord and vTextureId pass the attributes through, and vColor is
vec4(aColor.rgb * aColor.a, aColor.a). -/
def textureVertMain (projectionMatrix : Mat4) (vin : VertexIn) : VertexOut :=
  { glPosition := mat4MulVec projectionMatrix
      (Vec4.mk vin.aVertexPosition.x vin.aVertexPosition.y
        vin.aVertexPosition.z 1),
    vTextureCoord := vin.aTextureCoord,
    vTextureId := vin.aTextureId,
    vColor := Vec4.mk (vin.aColor.x * vin.aColor.w)
      (vin.aColor.y * vin.aColor.w) (vin.aColor.z * vin.aColor.w)
      vin.aColor.w }

/-- C9: for every vertex and every projection matrix, the color varying
equals (aColor.rgb * aColor.a, aColor.a) — each RGB channel multiplied by
alpha exactly once at the vertex stage, alpha passed through unchanged —
and the texture coordinate and the texture-unit index reach the fragment
stage unmodified. -/
theorem texture_vert_outputs (pm : Mat4) (vin : VertexIn) :
    (textureVertMain pm vin).vColor =
      Vec4.mk (vin.aColor.x * vin.aColor.w) (vin.aColor.y * vin.aColor.w)
        (vin.aColor.z * vin.aColor.w) vin.aColor.w ∧
    (textureVertMain pm vin).vTextureCoord = vin.aTextureCoord ∧
    (textureVertMain pm vin).vTextureId = vin.aTextureId :=
  ⟨rfl, rfl, rfl⟩

end PixiSpec
